import Mathlib

/-!
Shallow embedding of the bird-research job queue system: the durable job
queue (`Queue` in `src/lib/queue.ts` / `types.ts`), the worker loop
(`runWorker` in `src/workers/worker.ts`), the observer metrics
(`Observer.getMetrics`) and the HTTP admission handler (`createApp`,
`POST /bird`).  Machine integers (JS numbers used as millisecond
timestamps and counters) are modelled as `Nat`; JS `Record` payloads as
string association lists; the LMDB ordered key-value tables as a function
`String → Option ResearchJob` (jobs table) and an ordered association
list (queue index).
-/

namespace Birds

/-- Job status, from `types.ts`: `"queued" | "processing" | "completed" | "failed"`. -/
inductive JobStatus where
  | queued
  | processing
  | completed
  | failed
deriving DecidableEq

/-- Opaque JS `Record<string, unknown>` payload, modelled as a string association list. -/
abbrev JsRecord := List (String × String)

/-- The `ResearchJob` interface from `types.ts`. -/
structure ResearchJob where
  id : String
  name : String
  createdAt : Nat
  availableForProcessingAt : Nat
  retryCount : Nat
  status : JobStatus
  body : JsRecord
deriving DecidableEq

/-- The event action kinds (`ActionType` const object in `types.ts`). -/
inductive ActionType where
  | job_submitted
  | job_duplicate
  | job_claimed
  | job_completed
  | job_retry
  | job_failed
  | api_request
  | worker_start
deriving DecidableEq

/-- Log severity (`LogType` in `types.ts`). -/
inductive LogType where
  | log
  | warning
  | error
deriving DecidableEq

/-- An observer event (`LogAction` interface in `types.ts`). -/
structure LogAction where
  id : String
  timestamp : Nat
  type : LogType
  action : ActionType
  body : JsRecord
deriving DecidableEq

/-- Modelled from the spec: `CONFIG.TIMESTAMP_PAD_LENGTH` lives in the
configuration module `src/lib/config.ts`, which is not among the provided
sources; the spec gives its default, key width `W = 13`. -/
def TIMESTAMP_PAD_LENGTH : Nat := 13

/-- JS whitespace characters matched by the regex class `\s` (the ones
relevant to request names). -/
def jsWs (c : Char) : Bool :=
  c = ' ' || c = '\t' || c = '\n' || c = '\r' || c = '\x0b' || c = '\x0c'

/-- Replace each maximal run of whitespace by a single hyphen, as
`replace(/\s+/g, "-")` does.  The boolean records whether the previous
character was part of a whitespace run. -/
def collapseWsAux : Bool → List Char → List Char
  | _, [] => []
  | inRun, c :: rest =>
    if jsWs c then
      (if inRun then [] else ['-']) ++ collapseWsAux true rest
    else
      c :: collapseWsAux false rest

/-- JS `toLowerCase()` on the characters of a string (ASCII case mapping,
which is all request names exercise). -/
def jsToLower (s : String) : String :=
  ⟨s.data.map Char.toLower⟩

/-- `toJobId` from `types.ts`: `name.toLowerCase().replace(/\s+/g, "-")`. -/
def toJobId (name : String) : String :=
  ⟨collapseWsAux false (jsToLower name).data⟩

/-- JS `String.prototype.padStart(w, c)`: left-pad to length `w` with `c`;
a string already at least `w` long is returned unchanged. -/
def padStart (s : String) (w : Nat) (c : Char) : String :=
  if s.length < w then ⟨List.replicate (w - s.length) c⟩ ++ s else s

/-- `indexKey` from `queue.ts`:
`` `${String(timestamp).padStart(CONFIG.TIMESTAMP_PAD_LENGTH, "0")}-${jobId}` ``. -/
def indexKey (timestamp : Nat) (jobId : String) : String :=
  padStart (Nat.repr timestamp) TIMESTAMP_PAD_LENGTH '0' ++ "-" ++ jobId

/-- JS `s.slice(0, n)`: the first `n` characters of `s`. -/
def jsSlice0 (s : String) (n : Nat) : String :=
  ⟨s.data.take n⟩

/-- JS `parseInt(s, 10)` restricted to the shapes that occur here: parse
the maximal leading run of decimal digits; `none` models `NaN` (no
leading digit). -/
def parseInt10 (s : String) : Option Nat :=
  let ds := s.data.takeWhile Char.isDigit
  if ds = [] then none
  else some (ds.foldl (fun a c => a * 10 + (c.toNat - 48)) 0)

/-- The guard `timestamp > Date.now()` in `claimJob`; a `NaN` timestamp
(`none`) compares false in JS. -/
def tsAfterNow : Option Nat → Nat → Bool
  | none, _ => false
  | some t, now => now < t

/-- State of the queue's two LMDB tables: the `jobs` table (point reads
and writes only) and the `queue-index` string table, kept as a list of
`(key, value)` entries sorted by key so that its head is the least key,
matching `getRange({ limit: 1 })`. -/
structure QueueState where
  jobs : String → Option ResearchJob
  queueIndex : List (String × String)

/-- The empty store. -/
def emptyState : QueueState :=
  { jobs := fun _ => none, queueIndex := [] }

/-- `putSync` on the jobs table. -/
def jobsPut (k : String) (j : ResearchJob) (m : String → Option ResearchJob) :
    String → Option ResearchJob :=
  fun i => if i = k then some j else m i

/-- `putSync` on the ordered index: insert keeping keys sorted, replacing
the value if the key is already present (LMDB key uniqueness). -/
def idxPut (k v : String) : List (String × String) → List (String × String)
  | [] => [(k, v)]
  | e :: rest =>
    if k < e.1 then (k, v) :: e :: rest
    else if k = e.1 then (k, v) :: rest
    else e :: idxPut k v rest

/-- `removeSync` on the index: drop the entry with the given key. -/
def idxRemove (k : String) (idx : List (String × String)) : List (String × String) :=
  idx.filter (fun e => e.1 ≠ k)

/-- `Queue.submitJob` from `queue.ts`.  `now` stands for `Date.now()`.
Returns the `{ job, isDuplicate }` pair and the post state. -/
def submitJob (now : Nat) (requestName : String) (st : QueueState) :
    (ResearchJob × Bool) × QueueState :=
  let jobId := toJobId requestName
  match st.jobs jobId with
  | some existing =>
    if existing.status = .failed then
      let resetJob : ResearchJob :=
        { existing with
          createdAt := now
          availableForProcessingAt := now
          retryCount := 0
          status := .queued
          body := [] }
      ((resetJob, false),
       { jobs := jobsPut jobId resetJob st.jobs
         queueIndex := idxPut (indexKey now jobId) jobId st.queueIndex })
    else
      ((existing, true), st)
  | none =>
    let job : ResearchJob :=
      { id := jobId
        name := requestName
        createdAt := now
        availableForProcessingAt := now
        retryCount := 0
        status := .queued
        body := [] }
    ((job, false),
     { jobs := jobsPut jobId job st.jobs
       queueIndex := idxPut (indexKey now jobId) jobId st.queueIndex })

/-- `Queue.claimJob` from `queue.ts`.  Reads the head of the ordered
index (`getRange({ limit: 1 })`), parses the timestamp prefix of its key,
and either returns nothing, self-heals an orphan entry, or claims the
job. -/
def claimJob (now : Nat) (st : QueueState) : Option ResearchJob × QueueState :=
  match st.queueIndex.head? with
  | none => (none, st)
  | some (key, value) =>
    if tsAfterNow (parseInt10 (jsSlice0 key TIMESTAMP_PAD_LENGTH)) now then
      (none, st)
    else
      match st.jobs value with
      | none => (none, { st with queueIndex := idxRemove key st.queueIndex })
      | some job =>
        let updated : ResearchJob := { job with status := .processing }
        (some updated,
         { jobs := jobsPut job.id updated st.jobs
           queueIndex := idxRemove key st.queueIndex })

/-- `Queue.getJob`. -/
def getJob (jobId : String) (st : QueueState) : Option ResearchJob :=
  st.jobs jobId

/-- `Queue.completeJob`: set status `completed` and store the result
body; no index mutation. -/
def completeJob (jobId : String) (body : JsRecord) (st : QueueState) :
    Option ResearchJob × QueueState :=
  match st.jobs jobId with
  | none => (none, st)
  | some job =>
    let updated : ResearchJob := { job with status := .completed, body := body }
    (some updated, { st with jobs := jobsPut jobId updated st.jobs })

/-- `Queue.retryJob`: requeue with incremented `retryCount`, new
`availableForProcessingAt`, and a fresh index entry. -/
def retryJob (jobId : String) (nextAvailableAt : Nat) (st : QueueState) :
    Option ResearchJob × QueueState :=
  match st.jobs jobId with
  | none => (none, st)
  | some job =>
    let updated : ResearchJob :=
      { job with
        status := .queued
        retryCount := job.retryCount + 1
        availableForProcessingAt := nextAvailableAt }
    (some updated,
     { jobs := jobsPut jobId updated st.jobs
       queueIndex := idxPut (indexKey nextAvailableAt jobId) jobId st.queueIndex })

/-- `Queue.failJob`: set status `failed`; no index mutation. -/
def failJob (jobId : String) (st : QueueState) : Option ResearchJob × QueueState :=
  match st.jobs jobId with
  | none => (none, st)
  | some job =>
    let updated : ResearchJob := { job with status := .failed }
    (some updated, { st with jobs := jobsPut jobId updated st.jobs })

/-! ## Decimal digit strings

The index-key encoding rests on `Nat.repr` (the translation of JS
`String(timestamp)`).  We characterise it by a structural recursion and
develop the fixed-width zero-padded representation used by `padStart`. -/

/-- Big-endian decimal digit characters of `n`, the value computed by
`Nat.toDigits 10` and hence by `Nat.repr`. -/
def natDigits (n : Nat) : List Char :=
  if _ : n < 10 then [Nat.digitChar n]
  else natDigits (n / 10) ++ [Nat.digitChar (n % 10)]
decreasing_by exact Nat.div_lt_self (by omega) (by omega)

theorem natDigits_of_lt (n : Nat) (h : n < 10) : natDigits n = [Nat.digitChar n] := by
  rw [natDigits, dif_pos h]

theorem natDigits_of_ge (n : Nat) (h : ¬ n < 10) :
    natDigits n = natDigits (n / 10) ++ [Nat.digitChar (n % 10)] := by
  rw [natDigits, dif_neg h]

theorem toDigitsCore_eq_natDigits (fuel n : Nat) (acc : List Char) (h : n < fuel) :
    Nat.toDigitsCore 10 fuel n acc = natDigits n ++ acc := by
  induction fuel generalizing n acc with
  | zero => omega
  | succ f ih =>
    show (if n / 10 = 0 then Nat.digitChar (n % 10) :: acc
          else Nat.toDigitsCore 10 f (n / 10) (Nat.digitChar (n % 10) :: acc)) = _
    by_cases h10 : n / 10 = 0
    · have hn : n < 10 := by omega
      rw [if_pos h10, natDigits_of_lt n hn, Nat.mod_eq_of_lt hn]
      rfl
    · have hn : ¬ n < 10 := by omega
      have hlt : n / 10 < n := Nat.div_lt_self (by omega) (by omega)
      have hrec : n / 10 < f := by omega
      rw [if_neg h10, ih (n / 10) _ hrec, natDigits_of_ge n hn, List.append_assoc]
      rfl

/-- `Nat.repr` produces exactly the digit characters of `natDigits`. -/
theorem repr_data_eq_natDigits (n : Nat) : (Nat.repr n).data = natDigits n := by
  show (Nat.toDigits 10 n).asString.data = natDigits n
  unfold Nat.toDigits
  rw [toDigitsCore_eq_natDigits (n + 1) n [] (Nat.lt_succ_self n)]
  simp [List.asString]

theorem natDigits_length_le (W n : Nat) (h : n < 10 ^ (W + 1)) :
    (natDigits n).length ≤ W + 1 := by
  induction W generalizing n with
  | zero =>
    rw [natDigits_of_lt n (by simpa using h)]
    simp
  | succ w ih =>
    by_cases h10 : n < 10
    · rw [natDigits_of_lt n h10]; simp
    · rw [natDigits_of_ge n h10]
      have hd : n / 10 < 10 ^ (w + 1) := by
        rw [Nat.div_lt_iff_lt_mul (by omega)]
        calc n < 10 ^ (w + 1 + 1) := h
        _ = 10 ^ (w + 1) * 10 := by ring
      simpa using Nat.succ_le_succ (ih (n / 10) hd)

theorem natDigits_length_ge (W n : Nat) (h : 10 ^ W ≤ n) :
    W + 1 ≤ (natDigits n).length := by
  induction W generalizing n with
  | zero =>
    by_cases h10 : n < 10
    · rw [natDigits_of_lt n h10]; simp
    · rw [natDigits_of_ge n h10]; simp
  | succ w ih =>
    have h10 : ¬ n < 10 := by
      have : (10 : Nat) ≤ 10 ^ (w + 1) := by
        calc (10 : Nat) = 10 ^ 1 := (pow_one 10).symm
        _ ≤ 10 ^ (w + 1) := Nat.pow_le_pow_right (by omega) (by omega)
      omega
    rw [natDigits_of_ge n h10]
    have hd : 10 ^ w ≤ n / 10 := by
      rw [Nat.le_div_iff_mul_le (by omega)]
      calc 10 ^ w * 10 = 10 ^ (w + 1) := by ring
      _ ≤ n := h
    simpa using Nat.succ_le_succ (ih (n / 10) hd)

/-- The `W` low-order decimal digits of `n`, most significant first.  For
`n < 10 ^ W` this is the fixed-width zero-padded decimal representation
of `n`. -/
def fixedDigits : Nat → Nat → List Char
  | 0, _ => []
  | w + 1, n => fixedDigits w (n / 10) ++ [Nat.digitChar (n % 10)]

theorem fixedDigits_length (W n : Nat) : (fixedDigits W n).length = W := by
  induction W generalizing n with
  | zero => rfl
  | succ w ih => simp [fixedDigits, ih]

theorem fixedDigits_head (W n : Nat) (h : n < 10 ^ (W + 1)) :
    fixedDigits (W + 1) n =
      Nat.digitChar (n / 10 ^ W) :: fixedDigits W (n % 10 ^ W) := by
  induction W generalizing n with
  | zero =>
    show fixedDigits 0 (n / 10) ++ [Nat.digitChar (n % 10)] = _
    have hn : n < 10 := by simpa using h
    simp [fixedDigits, Nat.mod_eq_of_lt hn, Nat.div_eq_of_lt hn]
  | succ w ih =>
    show fixedDigits (w + 1) (n / 10) ++ [Nat.digitChar (n % 10)] = _
    have hd : n / 10 < 10 ^ (w + 1) := by
      rw [Nat.div_lt_iff_lt_mul (by omega)]
      calc n < 10 ^ (w + 1 + 1) := h
      _ = 10 ^ (w + 1) * 10 := by ring
    rw [ih (n / 10) hd]
    show Nat.digitChar (n / 10 / 10 ^ w) :: (fixedDigits w (n / 10 % 10 ^ w) ++ [Nat.digitChar (n % 10)]) = _
    have e1 : n / 10 / 10 ^ w = n / 10 ^ (w + 1) := by
      rw [Nat.div_div_eq_div_mul]
      congr 1
      ring
    have e2 : n / 10 % 10 ^ w = n % 10 ^ (w + 1) / 10 := by
      rw [show (10 : Nat) ^ (w + 1) = 10 * 10 ^ w by ring, Nat.mod_mul_right_div_self]
    have e3 : n % 10 = n % 10 ^ (w + 1) % 10 := by
      rw [Nat.mod_mod_of_dvd n ⟨10 ^ w, by ring⟩]
    rw [e1, e2, e3]
    rfl

theorem digitChar_isDigit : ∀ d, d < 10 → (Nat.digitChar d).isDigit = true := by
  decide

theorem digitChar_val : ∀ d, d < 10 → (Nat.digitChar d).toNat - 48 = d := by
  decide

theorem digitChar_lt_iff : ∀ a, a < 10 → ∀ b, b < 10 →
    ((Nat.digitChar a < Nat.digitChar b) ↔ a < b) := by
  decide

theorem fixedDigits_isDigit (W n : Nat) :
    ∀ c ∈ fixedDigits W n, c.isDigit = true := by
  induction W generalizing n with
  | zero => simp [fixedDigits]
  | succ w ih =>
    intro c hc
    rcases List.mem_append.mp hc with h | h
    · exact ih (n / 10) c h
    · have : c = Nat.digitChar (n % 10) := by simpa using h
      subst this
      exact digitChar_isDigit _ (Nat.mod_lt n (by omega))

theorem natDigits_isDigit (n : Nat) : ∀ c ∈ natDigits n, c.isDigit = true := by
  induction n using Nat.strong_induction_on with
  | _ n ih =>
    intro c hc
    by_cases h10 : n < 10
    · rw [natDigits_of_lt n h10] at hc
      have : c = Nat.digitChar n := by simpa using hc
      subst this
      exact digitChar_isDigit _ h10
    · rw [natDigits_of_ge n h10] at hc
      rcases List.mem_append.mp hc with h | h
      · exact ih (n / 10) (Nat.div_lt_self (by omega) (by omega)) c h
      · have : c = Nat.digitChar (n % 10) := by simpa using h
        subst this
        exact digitChar_isDigit _ (Nat.mod_lt n (by omega))

theorem fixedDigits_foldl (W : Nat) :
    ∀ n a, n < 10 ^ W →
      (fixedDigits W n).foldl (fun acc c => acc * 10 + (c.toNat - 48)) a =
        a * 10 ^ W + n := by
  induction W with
  | zero =>
    intro n a h
    have : n = 0 := by simpa using h
    subst this
    simp [fixedDigits]
  | succ w ih =>
    intro n a h
    rw [fixedDigits_head w n h]
    have hdiv : n / 10 ^ w < 10 := by
      rw [Nat.div_lt_iff_lt_mul (Nat.pos_pow_of_pos w (by omega))]
      calc n < 10 ^ (w + 1) := h
      _ = 10 * 10 ^ w := by ring
    show (fixedDigits w (n % 10 ^ w)).foldl _ (a * 10 + ((Nat.digitChar (n / 10 ^ w)).toNat - 48)) = _
    rw [digitChar_val _ hdiv, ih (n % 10 ^ w) _ (Nat.mod_lt n (Nat.pos_pow_of_pos w (by omega)))]
    calc (a * 10 + n / 10 ^ w) * 10 ^ w + n % 10 ^ w
        = a * 10 ^ (w + 1) + (10 ^ w * (n / 10 ^ w) + n % 10 ^ w) := by ring
    _ = a * 10 ^ (w + 1) + n := by rw [Nat.div_add_mod]

theorem fixedDigits_inj (W m n : Nat) (hm : m < 10 ^ W) (hn : n < 10 ^ W)
    (h : fixedDigits W m = fixedDigits W n) : m = n := by
  have e1 := fixedDigits_foldl W m 0 hm
  have e2 := fixedDigits_foldl W n 0 hn
  rw [h, e2] at e1
  omega

/-! ### Lexicographic order of fixed-width digit strings

LMDB compares string keys byte-wise; for the ASCII keys here that is the
character-wise lexicographic order `List.lt` underlying `String`'s `<`
(which we use explicitly, Mathlib re-instancing `<` on lists). -/

theorem char_list_lt_cons_iff (a b : Char) (as bs : List Char) :
    List.lt (a :: as) (b :: bs) ↔ (a < b ∨ (a = b ∧ List.lt as bs)) := by
  constructor
  · intro h
    cases h with
    | head _ _ h => exact Or.inl h
    | tail h1 h2 h3 => exact Or.inr ⟨le_antisymm (not_lt.mp h2) (not_lt.mp h1), h3⟩
  · rintro (h | ⟨rfl, h⟩)
    · exact List.lt.head _ _ h
    · exact List.lt.tail (lt_irrefl a) (lt_irrefl a) h

theorem char_list_not_lt_nil (xs : List Char) : ¬ List.lt xs [] := by
  intro h
  cases h

theorem fixedDigits_lt_iff (W : Nat) :
    ∀ m n, m < 10 ^ W → n < 10 ^ W →
      (List.lt (fixedDigits W m) (fixedDigits W n) ↔ m < n) := by
  induction W with
  | zero =>
    intro m n hm hn
    have hm0 : m = 0 := by simpa using hm
    have hn0 : n = 0 := by simpa using hn
    subst hm0; subst hn0
    show List.lt (fixedDigits 0 0) (fixedDigits 0 0) ↔ (0 : Nat) < 0
    simpa [fixedDigits] using char_list_not_lt_nil []
  | succ w ih =>
    intro m n hm hn
    rw [fixedDigits_head w m hm, fixedDigits_head w n hn, char_list_lt_cons_iff]
    have hmd : m / 10 ^ w < 10 := by
      rw [Nat.div_lt_iff_lt_mul (Nat.pos_pow_of_pos w (by omega))]
      calc m < 10 ^ (w + 1) := hm
      _ = 10 * 10 ^ w := by ring
    have hnd : n / 10 ^ w < 10 := by
      rw [Nat.div_lt_iff_lt_mul (Nat.pos_pow_of_pos w (by omega))]
      calc n < 10 ^ (w + 1) := hn
      _ = 10 * 10 ^ w := by ring
    have hpos : 0 < 10 ^ w := Nat.pos_pow_of_pos w (by omega)
    rw [digitChar_lt_iff _ hmd _ hnd,
      ih (m % 10 ^ w) (n % 10 ^ w) (Nat.mod_lt m hpos) (Nat.mod_lt n hpos)]
    constructor
    · rintro (h | ⟨heq, hlt⟩)
      · have h1 : m < 10 ^ w * (m / 10 ^ w + 1) := by
          have e := Nat.div_add_mod m (10 ^ w)
          have hr : m % 10 ^ w < 10 ^ w := Nat.mod_lt m hpos
          rw [Nat.mul_succ]
          omega
        have h2 : 10 ^ w * (m / 10 ^ w + 1) ≤ 10 ^ w * (n / 10 ^ w) :=
          Nat.mul_le_mul_left _ (Nat.succ_le_of_lt h)
        have h3 : 10 ^ w * (n / 10 ^ w) ≤ n := by
          have e := Nat.div_add_mod n (10 ^ w)
          omega
        omega
      · have hdig : m / 10 ^ w = n / 10 ^ w := by
          have := digitChar_val _ hmd
          have := digitChar_val _ hnd
          have : (Nat.digitChar (m / 10 ^ w)).toNat = (Nat.digitChar (n / 10 ^ w)).toNat := by
            rw [heq]
          omega
        have e1 := Nat.div_add_mod m (10 ^ w)
        have e2 := Nat.div_add_mod n (10 ^ w)
        rw [hdig] at e1
        generalize 10 ^ w * (n / 10 ^ w) = k at e1 e2
        omega
    · intro h
      have hle : m / 10 ^ w ≤ n / 10 ^ w := Nat.div_le_div_right h.le
      rcases Nat.lt_or_ge (m / 10 ^ w) (n / 10 ^ w) with hq | hq
      · exact Or.inl hq
      · have heq : m / 10 ^ w = n / 10 ^ w := le_antisymm hle hq
        refine Or.inr ⟨by rw [heq], ?_⟩
        have e1 := Nat.div_add_mod m (10 ^ w)
        have e2 := Nat.div_add_mod n (10 ^ w)
        rw [heq] at e1
        generalize 10 ^ w * (n / 10 ^ w) = k at e1 e2
        omega

/-! ### Padded `Nat.repr` equals the fixed-width representation -/

theorem natDigits_eq_fixedDigits (W : Nat) :
    ∀ n, 10 ^ W ≤ n → n < 10 ^ (W + 1) → natDigits n = fixedDigits (W + 1) n := by
  induction W with
  | zero =>
    intro n _ h2
    have hn : n < 10 := by simpa using h2
    rw [natDigits, dif_pos hn]
    simp [fixedDigits, Nat.mod_eq_of_lt hn]
  | succ w ih =>
    intro n h1 h2
    have h10 : ¬ n < 10 := by
      have : (10 : Nat) ≤ 10 ^ (w + 1) := by
        calc (10 : Nat) = 10 ^ 1 := (pow_one 10).symm
        _ ≤ 10 ^ (w + 1) := Nat.pow_le_pow_right (by omega) (by omega)
      omega
    rw [natDigits, dif_neg h10]
    have hd1 : 10 ^ w ≤ n / 10 := by
      rw [Nat.le_div_iff_mul_le (by omega)]
      calc 10 ^ w * 10 = 10 ^ (w + 1) := by ring
      _ ≤ n := h1
    have hd2 : n / 10 < 10 ^ (w + 1) := by
      rw [Nat.div_lt_iff_lt_mul (by omega)]
      calc n < 10 ^ (w + 1 + 1) := h2
      _ = 10 ^ (w + 1) * 10 := by ring
    rw [ih (n / 10) hd1 hd2]
    rfl

theorem replicate_natDigits_eq_fixedDigits (W : Nat) :
    ∀ n, 1 ≤ W → n < 10 ^ W →
      List.replicate (W - (natDigits n).length) '0' ++ natDigits n = fixedDigits W n := by
  induction W with
  | zero => omega
  | succ w ih =>
    intro n _ h
    by_cases hw : w = 0
    · subst hw
      have hn : n < 10 := by simpa using h
      rw [natDigits, dif_pos hn]
      simp [fixedDigits, Nat.mod_eq_of_lt hn]
    · by_cases hcase : n < 10 ^ w
      · have hlen : (natDigits n).length ≤ w := by
          have := natDigits_length_le (w - 1) n (by
            have : w - 1 + 1 = w := by omega
            rw [this]
            exact hcase)
          omega
        have hrw : w + 1 - (natDigits n).length = (w - (natDigits n).length) + 1 := by omega
        rw [hrw, List.replicate_succ, List.cons_append, ih n (by omega) hcase]
        rw [fixedDigits_head w n h, Nat.div_eq_of_lt hcase, Nat.mod_eq_of_lt hcase]
        rfl
      · have h1 : 10 ^ w ≤ n := by omega
        rw [natDigits_eq_fixedDigits w n h1 h, fixedDigits_length]
        simp

theorem padStart_data (s : String) (w : Nat) (c : Char) :
    (padStart s w c).data = List.replicate (w - s.data.length) c ++ s.data := by
  unfold padStart
  by_cases h : s.length < w
  · rw [if_pos h]
    rfl
  · rw [if_neg h]
    have hlen : s.length = s.data.length := rfl
    have : w - s.data.length = 0 := by omega
    rw [this]
    rfl

theorem padStart_repr_eq_fixedDigits (W n : Nat) (h1 : 1 ≤ W) (h : n < 10 ^ W) :
    (padStart (Nat.repr n) W '0').data = fixedDigits W n := by
  rw [padStart_data, repr_data_eq_natDigits]
  exact replicate_natDigits_eq_fixedDigits W n h1 h

theorem char_takeWhile_all (p : Char → Bool) (l : List Char) (h : ∀ c ∈ l, p c = true) :
    l.takeWhile p = l := by
  induction l with
  | nil => rfl
  | cons x xs ih =>
    rw [List.takeWhile_cons, if_pos (h x (by simp))]
    rw [ih (fun c hc => h c (by simp [hc]))]

theorem indexKey_data (t : Nat) (i : String) :
    (indexKey t i).data =
      (padStart (Nat.repr t) TIMESTAMP_PAD_LENGTH '0').data ++ '-' :: i.data := by
  show ((padStart (Nat.repr t) TIMESTAMP_PAD_LENGTH '0' ++ "-") ++ i).data = _
  rw [String.data_append, String.data_append, List.append_assoc]
  rfl

/-- Parsing the key prefix back out of `indexKey`, as `claimJob` does with
`parseInt(key.slice(0, CONFIG.TIMESTAMP_PAD_LENGTH), 10)`, recovers the
timestamp whenever it fits in the padded width. -/
theorem parseInt10_indexKey (t : Nat) (i : String) (h : t < 10 ^ TIMESTAMP_PAD_LENGTH) :
    parseInt10 (jsSlice0 (indexKey t i) TIMESTAMP_PAD_LENGTH) = some t := by
  have hpad : (padStart (Nat.repr t) TIMESTAMP_PAD_LENGTH '0').data =
      fixedDigits TIMESTAMP_PAD_LENGTH t :=
    padStart_repr_eq_fixedDigits _ t (by norm_num [TIMESTAMP_PAD_LENGTH]) h
  have hslice : (jsSlice0 (indexKey t i) TIMESTAMP_PAD_LENGTH).data =
      fixedDigits TIMESTAMP_PAD_LENGTH t := by
    show (indexKey t i).data.take TIMESTAMP_PAD_LENGTH = _
    rw [indexKey_data, hpad]
    exact List.take_left' (fixedDigits_length _ t)
  unfold parseInt10
  rw [hslice, char_takeWhile_all _ _ (fixedDigits_isDigit _ t)]
  have hne : ¬ (fixedDigits TIMESTAMP_PAD_LENGTH t = []) := by
    intro he
    have := fixedDigits_length TIMESTAMP_PAD_LENGTH t
    rw [he] at this
    norm_num [TIMESTAMP_PAD_LENGTH] at this
  rw [if_neg hne, fixedDigits_foldl _ t 0 h]
  simp

/-- With Mathlib's order instances in scope, `<` on `String` agrees with
the core character-wise `List.lt` on the underlying data (the order LMDB
applies to these ASCII keys). -/
theorem string_lt_iff_data_lt (s t : String) : (s < t) ↔ List.lt s.data t.data := by
  rw [String.lt_iff_toList_lt]
  exact (List.lt_iff_lex_lt s.data t.data).symm

/-- Unfolding of `claimJob` when the index is empty. -/
theorem claimJob_head_none (now : Nat) (st : QueueState)
    (h : st.queueIndex.head? = none) : claimJob now st = (none, st) := by
  unfold claimJob
  rw [h]

/-- Unfolding of `claimJob` at a head index entry. -/
theorem claimJob_head_some (now : Nat) (st : QueueState) (k v : String)
    (hhead : st.queueIndex.head? = some (k, v)) :
    claimJob now st =
      if tsAfterNow (parseInt10 (jsSlice0 k TIMESTAMP_PAD_LENGTH)) now then (none, st)
      else
        match st.jobs v with
        | none => (none, { st with queueIndex := idxRemove k st.queueIndex })
        | some job =>
          (some { job with status := JobStatus.processing },
           { jobs := jobsPut job.id { job with status := JobStatus.processing } st.jobs
             queueIndex := idxRemove k st.queueIndex }) := by
  unfold claimJob
  rw [hhead]

theorem char_list_append_lt_iff :
    ∀ (xs ys zs ws : List Char), xs.length = ys.length →
      (List.lt (xs ++ zs) (ys ++ ws) ↔ (List.lt xs ys ∨ (xs = ys ∧ List.lt zs ws))) := by
  intro xs
  induction xs with
  | nil =>
    intro ys zs ws h
    have hys : ys = [] := by
      cases ys with
      | nil => rfl
      | cons => simp at h
    subst hys
    simp only [List.nil_append]
    constructor
    · intro h'
      exact Or.inr ⟨by trivial, h'⟩
    · rintro (h' | ⟨-, h'⟩)
      · exact absurd h' (char_list_not_lt_nil [])
      · exact h'
  | cons x xs ih =>
    intro ys zs ws h
    cases ys with
    | nil => simp at h
    | cons y ys =>
      simp only [List.cons_append]
      rw [char_list_lt_cons_iff, char_list_lt_cons_iff, ih ys zs ws (by simpa using h)]
      constructor
      · rintro (hxy | ⟨rfl, hlt | ⟨rfl, hzw⟩⟩)
        · exact Or.inl (Or.inl hxy)
        · exact Or.inl (Or.inr ⟨rfl, hlt⟩)
        · exact Or.inr ⟨rfl, hzw⟩
      · rintro ((hxy | ⟨rfl, hlt⟩) | ⟨heq, hzw⟩)
        · exact Or.inl hxy
        · exact Or.inr ⟨rfl, Or.inl hlt⟩
        · obtain ⟨h1, h2⟩ : x = y ∧ xs = ys := by
            injection heq with h1 h2
            exact ⟨h1, h2⟩
          subst h1
          subst h2
          exact Or.inr ⟨rfl, Or.inr ⟨rfl, hzw⟩⟩

/-! ## Claim C5: the key encoding is order-preserving -/

/-- C5: for timestamps below `10 ^ TIMESTAMP_PAD_LENGTH` (at most 13
decimal digits) and arbitrary job ids, the encoded key
`pad(t, 13) ++ "-" ++ id` is smaller in the lexicographic string order
than another exactly when `(t, id)` precedes `(t', id')` in
numeric-then-lexicographic order; hence the least index key is the entry
with minimal `(availableForProcessingAt, id)`. -/
theorem indexKey_lt_iff (t1 t2 : Nat) (i1 i2 : String)
    (h1 : t1 < 10 ^ TIMESTAMP_PAD_LENGTH) (h2 : t2 < 10 ^ TIMESTAMP_PAD_LENGTH) :
    (indexKey t1 i1 < indexKey t2 i2) ↔ (t1 < t2 ∨ (t1 = t2 ∧ i1 < i2)) := by
  have e1 : (indexKey t1 i1).data = fixedDigits TIMESTAMP_PAD_LENGTH t1 ++ '-' :: i1.data := by
    rw [indexKey_data, padStart_repr_eq_fixedDigits _ _ (by norm_num [TIMESTAMP_PAD_LENGTH]) h1]
  have e2 : (indexKey t2 i2).data = fixedDigits TIMESTAMP_PAD_LENGTH t2 ++ '-' :: i2.data := by
    rw [indexKey_data, padStart_repr_eq_fixedDigits _ _ (by norm_num [TIMESTAMP_PAD_LENGTH]) h2]
  rw [string_lt_iff_data_lt (indexKey t1 i1) (indexKey t2 i2), string_lt_iff_data_lt i1 i2]
  rw [e1, e2, char_list_append_lt_iff _ _ _ _
      (by rw [fixedDigits_length, fixedDigits_length]),
    fixedDigits_lt_iff TIMESTAMP_PAD_LENGTH t1 t2 h1 h2, char_list_lt_cons_iff]
  constructor
  · rintro (h | ⟨heq, hdash | ⟨-, hlt⟩⟩)
    · exact Or.inl h
    · exact absurd hdash (lt_irrefl _)
    · exact Or.inr ⟨fixedDigits_inj _ t1 t2 h1 h2 heq, hlt⟩
  · rintro (h | ⟨rfl, hlt⟩)
    · exact Or.inl h
    · exact Or.inr ⟨rfl, Or.inr ⟨rfl, hlt⟩⟩

/-- C5 witness: with equal timestamps the id breaks the tie. -/
theorem indexKey_lt_iff_witness :
    ((3 : Nat) < 10 ^ TIMESTAMP_PAD_LENGTH ∧ (3 : Nat) < 10 ^ TIMESTAMP_PAD_LENGTH) ∧
    ((indexKey 3 "a" < indexKey 3 "b") ↔ (3 < 3 ∨ (3 = 3 ∧ ("a" : String) < "b"))) :=
  ⟨⟨by decide, by decide⟩, indexKey_lt_iff 3 3 "a" "b" (by decide) (by decide)⟩

/-! ## Claim C6: orphan index entries are self-healed -/

/-- C6: when `claimJob` reads an eligible head index entry whose
referenced job record is missing, it deletes exactly that one orphan
entry (the jobs table is untouched and, when index keys are unique, the
removal drops precisely the head entry) and returns no job. -/
theorem claimJob_orphan (now : Nat) (st : QueueState) (k v : String)
    (hhead : st.queueIndex.head? = some (k, v))
    (hts : tsAfterNow (parseInt10 (jsSlice0 k TIMESTAMP_PAD_LENGTH)) now = false)
    (hjob : st.jobs v = none) :
    claimJob now st = (none, { jobs := st.jobs, queueIndex := idxRemove k st.queueIndex }) ∧
    ((st.queueIndex.map Prod.fst).Nodup → idxRemove k st.queueIndex = st.queueIndex.tail) := by
  constructor
  · rw [claimJob_head_some now st k v hhead, hts, hjob]
    simp
  · intro hnodup
    cases hq : st.queueIndex with
    | nil => rw [hq] at hhead; simp at hhead
    | cons e rest =>
      rw [hq] at hhead
      have he : e = (k, v) := by simpa using hhead
      subst he
      rw [hq] at hnodup
      simp only [List.map_cons, List.nodup_cons] at hnodup
      unfold idxRemove
      rw [List.filter_cons]
      have : ¬ ((k, v).1 ≠ k) := by simp
      simp only [this]
      rw [if_neg (by simp)]
      show rest.filter (fun e => e.1 ≠ k) = rest
      rw [List.filter_eq_self]
      intro a ha
      have : a.1 ≠ k := by
        intro hak
        exact hnodup.1 (by rw [← hak]; exact List.mem_map_of_mem Prod.fst ha)
      simpa using this

/-- C6 witness: a state whose single index entry points to a missing job
record is healed by `claimJob`. -/
theorem claimJob_orphan_witness :
    claimJob 10 { jobs := fun _ => none, queueIndex := [(indexKey 3 "a", "a")] } =
      (none,
       { jobs := fun _ => none,
         queueIndex := idxRemove (indexKey 3 "a") [(indexKey 3 "a", "a")] }) ∧
    (([(indexKey 3 "a", "a")].map Prod.fst).Nodup →
      idxRemove (indexKey 3 "a") [(indexKey 3 "a", "a")] = [(indexKey 3 "a", "a")].tail) :=
  claimJob_orphan 10 { jobs := fun _ => none, queueIndex := [(indexKey 3 "a", "a")] }
    (indexKey 3 "a") "a" (by decide) (by decide) rfl

/-! ## Claim C1: claim eligibility -/

/-- Consistency of the secondary index with the jobs table: every index
entry points at an existing record whose `id` field matches the table
key and whose key is `(availableForProcessingAt, id)` with the timestamp
inside the padded width.  This is the data-model invariant stated by the
spec for reachable stores (index key is `(availableAt, id)`; W=13 covers
all timestamps in the system lifetime). -/
def IndexConsistent (st : QueueState) : Prop :=
  ∀ k v, (k, v) ∈ st.queueIndex →
    ∃ j, st.jobs v = some j ∧ j.id = v ∧
      j.availableForProcessingAt < 10 ^ TIMESTAMP_PAD_LENGTH ∧
      k = indexKey j.availableForProcessingAt v

theorem head?_mem_list {α : Type} (l : List α) (x : α) (h : l.head? = some x) : x ∈ l := by
  cases l with
  | nil => simp at h
  | cons a t =>
    have : a = x := by simpa using h
    subst this
    exact List.mem_cons_self _ _

/-- C1: for every index-consistent queue state, `claimJob` returns no job
when the index is empty or the timestamp parsed from the least index key
is beyond `now`; and any job it does return has
`availableForProcessingAt ≤ now`. -/
theorem claimJob_eligible (now : Nat) (st : QueueState) (hwf : IndexConsistent st) :
    (st.queueIndex = [] → (claimJob now st).1 = none) ∧
    (∀ k v t, st.queueIndex.head? = some (k, v) →
      parseInt10 (jsSlice0 k TIMESTAMP_PAD_LENGTH) = some t → now < t →
      (claimJob now st).1 = none) ∧
    (∀ j, (claimJob now st).1 = some j → j.availableForProcessingAt ≤ now) := by
  refine ⟨?_, ?_, ?_⟩
  · intro h
    rw [claimJob_head_none now st (by rw [h]; rfl)]
  · intro k v t hhead hparse hlt
    rw [claimJob_head_some now st k v hhead, hparse,
      show tsAfterNow (some t) now = true from decide_eq_true hlt]
    rfl
  · intro j hj
    cases hhead : st.queueIndex.head? with
    | none => rw [claimJob_head_none now st hhead] at hj; simp at hj
    | some kv =>
      obtain ⟨k, v⟩ := kv
      rw [claimJob_head_some now st k v hhead] at hj
      obtain ⟨j0, hj0, hid, hbound, hkey⟩ := hwf k v (head?_mem_list _ _ hhead)
      subst hkey
      rw [parseInt10_indexKey _ _ hbound] at hj
      by_cases hcmp : now < j0.availableForProcessingAt
      · rw [show tsAfterNow (some j0.availableForProcessingAt) now = true from
            decide_eq_true hcmp] at hj
        simp at hj
      · rw [show tsAfterNow (some j0.availableForProcessingAt) now = false from
            decide_eq_false hcmp] at hj
        simp only [Bool.false_eq_true, if_false, hj0] at hj
        have : { j0 with status := JobStatus.processing } = j := by
          simpa using hj
        subst this
        show j0.availableForProcessingAt ≤ now
        omega

/-- C1 witness: in the consistent state produced by one submission, the
claimed job's availability is not in the future. -/
theorem claimJob_eligible_witness :
    ({ id := "a", name := "A", createdAt := 5, availableForProcessingAt := 5,
       retryCount := 0, status := JobStatus.processing, body := [] } :
        ResearchJob).availableForProcessingAt ≤ 10 :=
  (claimJob_eligible 10 (submitJob 5 "A" emptyState).2 (by
      intro k v h
      have hk : k = indexKey 5 "a" ∧ v = "a" := by
        simpa [submitJob, emptyState, idxPut] using h
      obtain ⟨rfl, rfl⟩ := hk
      exact ⟨{ id := "a", name := "A", createdAt := 5, availableForProcessingAt := 5,
               retryCount := 0, status := JobStatus.queued, body := [] },
             by decide, rfl, by decide, rfl⟩)).2.2
    { id := "a", name := "A", createdAt := 5, availableForProcessingAt := 5,
      retryCount := 0, status := JobStatus.processing, body := [] }
    (by decide)

/-! ## Claim C2: idempotent submission -/

/-- C2: if a job record with id `canonical(name)` already exists and its
status is not `failed`, `submitJob` returns that existing record with
`isDuplicate = true` and mutates neither the jobs table nor the queue
index (the state is returned unchanged). -/
theorem submitJob_duplicate_noop (now : Nat) (requestName : String) (st : QueueState)
    (j : ResearchJob) (hget : st.jobs (toJobId requestName) = some j)
    (hstatus : j.status ≠ .failed) :
    submitJob now requestName st = ((j, true), st) := by
  unfold submitJob
  simp only [hget, if_neg hstatus]

/-- C2 witness: a second submission of "Brown Pelican" is a duplicate
no-op on the state produced by the first submission. -/
theorem submitJob_duplicate_noop_witness :
    submitJob 7 "Brown Pelican" (submitJob 5 "Brown Pelican" emptyState).2 =
      (({ id := "brown-pelican", name := "Brown Pelican", createdAt := 5,
          availableForProcessingAt := 5, retryCount := 0, status := .queued, body := [] },
        true),
       (submitJob 5 "Brown Pelican" emptyState).2) :=
  submitJob_duplicate_noop 7 "Brown Pelican" (submitJob 5 "Brown Pelican" emptyState).2
    { id := "brown-pelican", name := "Brown Pelican", createdAt := 5,
      availableForProcessingAt := 5, retryCount := 0, status := .queued, body := [] }
    (by decide) (by decide)

/-! ## Claim C3: reset on failed -/

/-- C3: if the existing record for `canonical(name)` has status `failed`,
`submitJob` returns `isDuplicate = false` together with a record with
`createdAt = now`, `availableForProcessingAt = now`, `retryCount = 0`,
status `queued` and empty body, and the post state holds that record in
the jobs table and the index entry `(now, id)`. -/
theorem submitJob_failed_reset (now : Nat) (requestName : String) (st : QueueState)
    (j : ResearchJob) (hget : st.jobs (toJobId requestName) = some j)
    (hstatus : j.status = .failed) :
    submitJob now requestName st =
      (({ j with createdAt := now, availableForProcessingAt := now, retryCount := 0,
                 status := .queued, body := [] }, false),
       { jobs := jobsPut (toJobId requestName)
           { j with createdAt := now, availableForProcessingAt := now, retryCount := 0,
                    status := .queued, body := [] } st.jobs
         queueIndex := idxPut (indexKey now (toJobId requestName)) (toJobId requestName)
           st.queueIndex }) := by
  unfold submitJob
  simp only [hget, hstatus, if_true]

/-- C3 witness: resubmitting "A" after a `failJob` resets the record and
reinserts an index entry at the new submission time. -/
theorem submitJob_failed_reset_witness :
    submitJob 9 "A" (failJob "a" (submitJob 5 "A" emptyState).2).2 =
      (({ id := "a", name := "A", createdAt := 9, availableForProcessingAt := 9,
          retryCount := 0, status := .queued, body := [] }, false),
       { jobs := jobsPut (toJobId "A")
           { id := "a", name := "A", createdAt := 9, availableForProcessingAt := 9,
             retryCount := 0, status := .queued, body := [] }
           (failJob "a" (submitJob 5 "A" emptyState).2).2.jobs
         queueIndex := idxPut (indexKey 9 (toJobId "A")) (toJobId "A")
           (failJob "a" (submitJob 5 "A" emptyState).2).2.queueIndex }) :=
  submitJob_failed_reset 9 "A" (failJob "a" (submitJob 5 "A" emptyState).2).2
    { id := "a", name := "A", createdAt := 5, availableForProcessingAt := 5,
      retryCount := 0, status := .failed, body := [] }
    (by decide) (by decide)

/-! ## Claim C10: frame of completeJob and failJob -/

/-- C10: for every existing job record, regardless of its status,
`completeJob` changes only the `status` (to `completed`) and `body`
fields, `failJob` changes only the `status` field (to `failed`), and
neither operation adds or removes any queue-index entry. -/
theorem completeJob_failJob_frame (st : QueueState) (jobId : String) (body : JsRecord)
    (j : ResearchJob) (h : st.jobs jobId = some j) :
    completeJob jobId body st =
      (some { j with status := .completed, body := body },
       { jobs := jobsPut jobId { j with status := .completed, body := body } st.jobs
         queueIndex := st.queueIndex }) ∧
    failJob jobId st =
      (some { j with status := .failed },
       { jobs := jobsPut jobId { j with status := .failed } st.jobs
         queueIndex := st.queueIndex }) := by
  constructor
  · unfold completeJob
    simp only [h]
  · unfold failJob
    simp only [h]

/-- C10 witness: completing and failing the still-queued "A" job leaves
its index entry in place (the queue index is untouched). -/
theorem completeJob_failJob_frame_witness :
    completeJob "a" [("research", "x")] (submitJob 5 "A" emptyState).2 =
      (some { id := "a", name := "A", createdAt := 5, availableForProcessingAt := 5,
              retryCount := 0, status := .completed, body := [("research", "x")] },
       { jobs := jobsPut "a"
           { id := "a", name := "A", createdAt := 5, availableForProcessingAt := 5,
             retryCount := 0, status := .completed, body := [("research", "x")] }
           (submitJob 5 "A" emptyState).2.jobs
         queueIndex := (submitJob 5 "A" emptyState).2.queueIndex }) ∧
    failJob "a" (submitJob 5 "A" emptyState).2 =
      (some { id := "a", name := "A", createdAt := 5, availableForProcessingAt := 5,
              retryCount := 0, status := .failed, body := [] },
       { jobs := jobsPut "a"
           { id := "a", name := "A", createdAt := 5, availableForProcessingAt := 5,
             retryCount := 0, status := .failed, body := [] }
           (submitJob 5 "A" emptyState).2.jobs
         queueIndex := (submitJob 5 "A" emptyState).2.queueIndex }) :=
  completeJob_failJob_frame (submitJob 5 "A" emptyState).2 "a" [("research", "x")]
    { id := "a", name := "A", createdAt := 5, availableForProcessingAt := 5,
      retryCount := 0, status := .queued, body := [] }
    (by decide)

/-! ## Claim C4: bounded retries

The worker (`runWorker`) decides between `retryJob` and `failJob` by the
claimed job's `retryCount` at the moment of failure:
`if (job.retryCount >= CONFIG.MAX_RETRIES) failJob else retryJob`.
`Reach` captures every store reachable from the empty store under the
queue operations driven as the system drives them. -/

/-- Stores reachable from the empty store under submissions and
worker-driven claim / complete / retry / fail.  The worker only retries
or fails a job it has claimed (status `processing`), retrying exactly
when the retry count at the moment of failure is below `MAX` (the
configured `MAX_RETRIES`), failing otherwise. -/
inductive Reach (MAX : Nat) : QueueState → Prop where
  | init : Reach MAX emptyState
  | submit (st : QueueState) (now : Nat) (name : String) :
      Reach MAX st → Reach MAX (submitJob now name st).2
  | claim (st : QueueState) (now : Nat) :
      Reach MAX st → Reach MAX (claimJob now st).2
  | complete (st : QueueState) (jobId : String) (body : JsRecord) (j : ResearchJob) :
      Reach MAX st → st.jobs jobId = some j → j.status = JobStatus.processing →
      Reach MAX (completeJob jobId body st).2
  | workerRetry (st : QueueState) (jobId : String) (t : Nat) (j : ResearchJob) :
      Reach MAX st → st.jobs jobId = some j → j.status = JobStatus.processing →
      j.retryCount < MAX → Reach MAX (retryJob jobId t st).2
  | workerFail (st : QueueState) (jobId : String) (j : ResearchJob) :
      Reach MAX st → st.jobs jobId = some j → j.status = JobStatus.processing →
      MAX ≤ j.retryCount → Reach MAX (failJob jobId st).2

/-- C4: in every reachable state no job record has
`retryCount > MAX_RETRIES`; moreover `retryJob` is the only operation
that increments `retryCount`, and it does so by exactly one (its result
record differs from the stored one only in status, retry count and
availability). -/
theorem reach_retryCount_le (MAX : Nat) :
    (∀ st, Reach MAX st → ∀ i j, st.jobs i = some j → j.retryCount ≤ MAX) ∧
    (∀ st i t j, st.jobs i = some j →
      (retryJob i t st).1 =
        some { j with status := JobStatus.queued, retryCount := j.retryCount + 1,
                      availableForProcessingAt := t }) := by
  constructor
  · intro st h
    induction h with
    | init =>
      intro i j h
      simp [emptyState] at h
    | submit st now name _ ih =>
      intro i j hj
      simp only [submitJob] at hj
      cases hget : st.jobs (toJobId name) with
      | some existing =>
        rw [hget] at hj
        simp only [] at hj
        by_cases hst : existing.status = JobStatus.failed
        · rw [if_pos hst] at hj
          simp only [jobsPut] at hj
          by_cases hi : i = toJobId name
          · rw [if_pos hi] at hj
            have := hj
            injection this with hrec
            subst hrec
            simp
          · rw [if_neg hi] at hj
            exact ih i j hj
        · rw [if_neg hst] at hj
          exact ih i j hj
      | none =>
        rw [hget] at hj
        simp only [jobsPut] at hj
        by_cases hi : i = toJobId name
        · rw [if_pos hi] at hj
          injection hj with hrec
          subst hrec
          simp
        · rw [if_neg hi] at hj
          exact ih i j hj
    | claim st now _ ih =>
      intro i j hj
      cases hhead : st.queueIndex.head? with
      | none => rw [claimJob_head_none now st hhead] at hj; exact ih i j hj
      | some kv =>
        obtain ⟨k, v⟩ := kv
        rw [claimJob_head_some now st k v hhead] at hj
        by_cases hts : tsAfterNow (parseInt10 (jsSlice0 k TIMESTAMP_PAD_LENGTH)) now = true
        · rw [hts] at hj
          simp only [if_true] at hj
          exact ih i j hj
        · rw [Bool.not_eq_true] at hts
          rw [hts] at hj
          simp only [Bool.false_eq_true, if_false] at hj
          cases hget : st.jobs v with
          | none =>
            rw [hget] at hj
            exact ih i j hj
          | some job =>
            rw [hget] at hj
            simp only [jobsPut] at hj
            by_cases hi : i = job.id
            · rw [if_pos hi] at hj
              injection hj with hrec
              subst hrec
              have := ih v job hget
              simpa using this
            · rw [if_neg hi] at hj
              exact ih i j hj
    | complete st jobId body j0 _ hget hst ih =>
      intro i j hj
      unfold completeJob at hj
      rw [hget] at hj
      simp only [jobsPut] at hj
      by_cases hi : i = jobId
      · rw [if_pos hi] at hj
        injection hj with hrec
        subst hrec
        have := ih jobId j0 hget
        simpa using this
      · rw [if_neg hi] at hj
        exact ih i j hj
    | workerRetry st jobId t j0 _ hget hst hrc ih =>
      intro i j hj
      unfold retryJob at hj
      rw [hget] at hj
      simp only [jobsPut] at hj
      by_cases hi : i = jobId
      · rw [if_pos hi] at hj
        injection hj with hrec
        subst hrec
        simpa using hrc
      · rw [if_neg hi] at hj
        exact ih i j hj
    | workerFail st jobId j0 _ hget hst hrc ih =>
      intro i j hj
      unfold failJob at hj
      rw [hget] at hj
      simp only [jobsPut] at hj
      by_cases hi : i = jobId
      · rw [if_pos hi] at hj
        injection hj with hrec
        subst hrec
        have := ih jobId j0 hget
        simpa using this
      · rw [if_neg hi] at hj
        exact ih i j hj
  · intro st i t j hj
    unfold retryJob
    rw [hj]

/-- C4 witness: with `MAX_RETRIES = 3`, the job created by one submission
respects the bound. -/
theorem reach_retryCount_le_witness :
    ({ id := "a", name := "A", createdAt := 5, availableForProcessingAt := 5,
       retryCount := 0, status := JobStatus.queued, body := [] } :
        ResearchJob).retryCount ≤ 3 :=
  (reach_retryCount_le 3).1 (submitJob 5 "A" emptyState).2
    (Reach.submit emptyState 5 "A" Reach.init) "a"
    { id := "a", name := "A", createdAt := 5, availableForProcessingAt := 5,
      retryCount := 0, status := JobStatus.queued, body := [] }
    (by decide)

/-! ## Claim C9: claim exclusivity -/

/-- C9: `claimJob` runs inside `transactionSync`, so overlapping claims
are linearized by the store; in the linearized model, two consecutive
claims on an index-consistent store never return the same job record:
the first claim removes the claimed job's only index entry, so the
second observes a different head. -/
theorem claimJob_exclusive (now1 now2 : Nat) (st : QueueState) (hwf : IndexConsistent st)
    (j1 j2 : ResearchJob)
    (h1 : (claimJob now1 st).1 = some j1)
    (h2 : (claimJob now2 (claimJob now1 st).2).1 = some j2) :
    j1.id ≠ j2.id := by
  cases hhead1 : st.queueIndex.head? with
  | none =>
    rw [claimJob_head_none now1 st hhead1] at h1
    simp at h1
  | some kv1 =>
    obtain ⟨k1, v1⟩ := kv1
    rw [claimJob_head_some now1 st k1 v1 hhead1] at h1 h2
    by_cases hts1 : tsAfterNow (parseInt10 (jsSlice0 k1 TIMESTAMP_PAD_LENGTH)) now1 = true
    · rw [hts1] at h1
      simp at h1
    · rw [Bool.not_eq_true] at hts1
      rw [hts1] at h1 h2
      simp only [Bool.false_eq_true, if_false] at h1 h2
      obtain ⟨j0, hj0, hid0, hbound0, hkey0⟩ := hwf k1 v1 (head?_mem_list _ _ hhead1)
      rw [hj0] at h1 h2
      have hj1 : { j0 with status := JobStatus.processing } = j1 := by simpa using h1
      have h2' : (claimJob now2
          { jobs := jobsPut j0.id { j0 with status := JobStatus.processing } st.jobs
            queueIndex := idxRemove k1 st.queueIndex }).1 = some j2 := by
        simpa using h2
      cases hhead2 : (idxRemove k1 st.queueIndex).head? with
      | none =>
        rw [claimJob_head_none now2 _ hhead2] at h2'
        simp at h2'
      | some kv2 =>
        obtain ⟨k2, v2⟩ := kv2
        have hmem2 : (k2, v2) ∈ idxRemove k1 st.queueIndex := head?_mem_list _ _ hhead2
        obtain ⟨hmemSt, hkne⟩ : (k2, v2) ∈ st.queueIndex ∧ k2 ≠ k1 := by
          unfold idxRemove at hmem2
          rw [List.mem_filter] at hmem2
          refine ⟨hmem2.1, ?_⟩
          have := hmem2.2
          simpa using this
        obtain ⟨jb, hjb, hidb, hboundb, hkeyb⟩ := hwf k2 v2 hmemSt
        have hv21 : v2 ≠ v1 := by
          intro he
          subst he
          rw [hjb] at hj0
          injection hj0 with he2
          apply hkne
          rw [hkeyb, he2, ← hkey0]
        rw [claimJob_head_some now2 _ k2 v2 hhead2] at h2'
        have hlook : (jobsPut j0.id { j0 with status := JobStatus.processing } st.jobs) v2 =
            some jb := by
          unfold jobsPut
          rw [if_neg (by rw [hid0]; exact hv21), hjb]
        by_cases hts2 : tsAfterNow (parseInt10 (jsSlice0 k2 TIMESTAMP_PAD_LENGTH)) now2 = true
        · rw [hts2] at h2'
          simp at h2'
        · rw [Bool.not_eq_true] at hts2
          rw [hts2] at h2'
          simp only [Bool.false_eq_true, if_false] at h2'
          rw [hlook] at h2'
          have hj2 : { jb with status := JobStatus.processing } = j2 := by simpa using h2'
          rw [← hj1, ← hj2]
          show j0.id ≠ jb.id
          rw [hid0, hidb]
          exact fun he => hv21 he.symm

/-- C9 witness: with two queued jobs `a` and `b`, the first claim takes
`a` and the second takes `b`. -/
theorem claimJob_exclusive_witness :
    ({ id := "a", name := "A", createdAt := 1, availableForProcessingAt := 1,
       retryCount := 0, status := JobStatus.processing, body := [] } :
        ResearchJob).id ≠
      ({ id := "b", name := "B", createdAt := 2, availableForProcessingAt := 2,
         retryCount := 0, status := JobStatus.processing, body := [] } :
          ResearchJob).id :=
  claimJob_exclusive 10 10
    { jobs := fun i =>
        if i = "a" then
          some { id := "a", name := "A", createdAt := 1, availableForProcessingAt := 1,
                 retryCount := 0, status := JobStatus.queued, body := [] }
        else if i = "b" then
          some { id := "b", name := "B", createdAt := 2, availableForProcessingAt := 2,
                 retryCount := 0, status := JobStatus.queued, body := [] }
        else none
      queueIndex := [(indexKey 1 "a", "a"), (indexKey 2 "b", "b")] }
    (by
      intro k v h
      rcases List.mem_cons.mp h with h1 | h1
      · injection h1 with ha hb
        subst ha
        subst hb
        exact ⟨{ id := "a", name := "A", createdAt := 1, availableForProcessingAt := 1,
                 retryCount := 0, status := JobStatus.queued, body := [] },
               by decide, rfl, by decide, rfl⟩
      · have h2 : (k, v) = (indexKey 2 "b", "b") := by simpa using h1
        injection h2 with ha hb
        subst ha
        subst hb
        exact ⟨{ id := "b", name := "B", createdAt := 2, availableForProcessingAt := 2,
                 retryCount := 0, status := JobStatus.queued, body := [] },
               by decide, rfl, by decide, rfl⟩)
    { id := "a", name := "A", createdAt := 1, availableForProcessingAt := 1,
      retryCount := 0, status := JobStatus.processing, body := [] }
    { id := "b", name := "B", createdAt := 2, availableForProcessingAt := 2,
      retryCount := 0, status := JobStatus.processing, body := [] }
    (by decide) (by decide)

/-! ## Observer: event log and windowed metrics -/

/-- The events table of the observer: `(key, event)` entries, `getRange`
yielding them in ascending key order. -/
abbrev EventLog := List (String × LogAction)

/-- Executable byte-order comparison of keys, the order LMDB scans by;
it coincides with the character-wise `List.lt` (see
`charListLtB_iff`). -/
def charListLtB : List Char → List Char → Bool
  | [], [] => false
  | [], _ :: _ => true
  | _ :: _, [] => false
  | a :: as, b :: bs =>
    if a < b then true
    else if b < a then false
    else charListLtB as bs

theorem charListLtB_iff : ∀ as bs : List Char, charListLtB as bs = true ↔ List.lt as bs := by
  intro as
  induction as with
  | nil =>
    intro bs
    cases bs with
    | nil =>
      simp only [charListLtB]
      constructor
      · intro hh
        exact absurd hh Bool.false_ne_true
      · intro hh
        exact absurd hh (char_list_not_lt_nil [])
    | cons b bs =>
      simp only [charListLtB]
      constructor
      · intro _
        exact List.lt.nil b bs
      · intro _
        trivial
  | cons a as ih =>
    intro bs
    cases bs with
    | nil =>
      simp only [charListLtB]
      constructor
      · intro hh
        exact absurd hh Bool.false_ne_true
      · intro hh
        exact absurd hh (char_list_not_lt_nil (a :: as))
    | cons b bs =>
      simp only [charListLtB]
      rw [char_list_lt_cons_iff]
      by_cases h1 : a < b
      · rw [if_pos h1]
        constructor
        · intro _
          exact Or.inl h1
        · intro _
          rfl
      · rw [if_neg h1]
        by_cases h2 : b < a
        · rw [if_pos h2]
          constructor
          · intro hh
            cases hh
          · rintro (hh | ⟨rfl, -⟩)
            · exact absurd hh h1
            · exact absurd h2 (lt_irrefl a)
        · rw [if_neg h2]
          have hab : a = b := le_antisymm (not_lt.mp h2) (not_lt.mp h1)
          rw [ih bs]
          constructor
          · intro hh
            exact Or.inr ⟨hab, hh⟩
          · rintro (hh | ⟨-, hh⟩)
            · exact absurd hh h1
            · exact hh

/-- String comparison used for range-scan boundaries. -/
def strLtB (a b : String) : Bool := charListLtB a.data b.data

/-- The `jobId` read `entry.body?.jobId` with JS truthiness: an absent or
empty id is falsy and skipped by the metrics scan. -/
def entryJobId (e : LogAction) : Option String :=
  match e.body.lookup "jobId" with
  | some s => if s = "" then none else some s
  | none => none

/-- JS `Map.set` over string keys: replace in place or append. -/
def mapSet (k : String) (v : Nat) : List (String × Nat) → List (String × Nat)
  | [] => [(k, v)]
  | e :: rest => if e.1 = k then (k, v) :: rest else e :: mapSet k v rest

/-- Accumulator of the single scan loop in `Observer.getMetrics`. -/
structure ScanAcc where
  submitted : Nat
  completed : Nat
  failed : Nat
  claimedTimes : List (String × Nat)
  completedTimes : List (String × Nat)

def initScanAcc : ScanAcc :=
  { submitted := 0, completed := 0, failed := 0, claimedTimes := [], completedTimes := [] }

/-- One iteration of the `switch (entry.action)` in `getMetrics`. -/
def scanStep (s : ScanAcc) (e : LogAction) : ScanAcc :=
  match e.action with
  | ActionType.job_submitted => { s with submitted := s.submitted + 1 }
  | ActionType.job_completed =>
    { s with
      completed := s.completed + 1
      completedTimes :=
        match entryJobId e with
        | some jid => mapSet jid e.timestamp s.completedTimes
        | none => s.completedTimes }
  | ActionType.job_failed => { s with failed := s.failed + 1 }
  | ActionType.job_claimed =>
    { s with
      claimedTimes :=
        match entryJobId e with
        | some jid => mapSet jid e.timestamp s.claimedTimes
        | none => s.claimedTimes }
  | _ => s

/-- The window scanned by `getMetrics`:
`getRange({ start: startKey })` yields the entries with key at least
`String(now - windowMs).padStart(W, "0")`. -/
def metricsWindow (now windowMs : Nat) (log : EventLog) : EventLog :=
  log.filter
    (fun e => ! strLtB e.1 (padStart (Nat.repr (now - windowMs)) TIMESTAMP_PAD_LENGTH '0'))

/-- Result shape of `Observer.getMetrics`; JS number division is modelled
exactly in `ℚ`. -/
structure MetricsResult where
  submitted : Nat
  completed : Nat
  failed : Nat
  failureRate : ℚ
  avgProcessingTimeMs : Option ℚ
deriving DecidableEq

/-- `Observer.getMetrics` from `observer.ts`: one ordered scan from the
window-start key counting `job-submitted`, `job-completed`, `job-failed`
and collecting claim/completion times; then
`failureRate = failed / (completed + failed)` (0 when the denominator is
0) and the mean claim-to-complete delta (null when no pair). -/
def getMetrics (now windowMs : Nat) (log : EventLog) : MetricsResult :=
  let acc := (metricsWindow now windowMs log).foldl (fun s e => scanStep s e.2) initScanAcc
  let total := acc.completed + acc.failed
  let failureRate : ℚ := if total = 0 then 0 else (acc.failed : ℚ) / (total : ℚ)
  let processingTimes : List ℚ :=
    acc.completedTimes.filterMap
      (fun p => (acc.claimedTimes.lookup p.1).map (fun cl => ((p.2 : ℚ) - (cl : ℚ))))
  let avg : Option ℚ :=
    if 0 < processingTimes.length then
      some (processingTimes.sum / (processingTimes.length : ℚ))
    else none
  { submitted := acc.submitted, completed := acc.completed, failed := acc.failed,
    failureRate := failureRate, avgProcessingTimeMs := avg }

theorem scanStep_submitted (s : ScanAcc) (e : LogAction) :
    (scanStep s e).submitted =
      s.submitted + (if e.action = ActionType.job_submitted then 1 else 0) := by
  cases h : e.action <;> simp [scanStep, h]

theorem scanStep_completed (s : ScanAcc) (e : LogAction) :
    (scanStep s e).completed =
      s.completed + (if e.action = ActionType.job_completed then 1 else 0) := by
  cases h : e.action <;> simp [scanStep, h]

theorem scanStep_failed (s : ScanAcc) (e : LogAction) :
    (scanStep s e).failed =
      s.failed + (if e.action = ActionType.job_failed then 1 else 0) := by
  cases h : e.action <;> simp [scanStep, h]

theorem foldl_scan_submitted (es : List (String × LogAction)) :
    ∀ s : ScanAcc, (es.foldl (fun s e => scanStep s e.2) s).submitted =
      s.submitted + es.countP (fun e => e.2.action = ActionType.job_submitted) := by
  induction es with
  | nil => intro s; simp
  | cons e rest ih =>
    intro s
    rw [List.foldl_cons, ih (scanStep s e.2), scanStep_submitted, List.countP_cons]
    by_cases h : e.2.action = ActionType.job_submitted <;> simp [h] <;> omega

theorem foldl_scan_completed (es : List (String × LogAction)) :
    ∀ s : ScanAcc, (es.foldl (fun s e => scanStep s e.2) s).completed =
      s.completed + es.countP (fun e => e.2.action = ActionType.job_completed) := by
  induction es with
  | nil => intro s; simp
  | cons e rest ih =>
    intro s
    rw [List.foldl_cons, ih (scanStep s e.2), scanStep_completed, List.countP_cons]
    by_cases h : e.2.action = ActionType.job_completed <;> simp [h] <;> omega

theorem foldl_scan_failed (es : List (String × LogAction)) :
    ∀ s : ScanAcc, (es.foldl (fun s e => scanStep s e.2) s).failed =
      s.failed + es.countP (fun e => e.2.action = ActionType.job_failed) := by
  induction es with
  | nil => intro s; simp
  | cons e rest ih =>
    intro s
    rw [List.foldl_cons, ih (scanStep s e.2), scanStep_failed, List.countP_cons]
    by_cases h : e.2.action = ActionType.job_failed <;> simp [h] <;> omega

/-! ## Claim C7: metrics consistency -/

/-- C7: over an event-log state whose scanned window holds exactly `c`
`job-completed` and `f` `job-failed` events, `getMetrics` reports
`completed = c`, `failed = f`, and
`failureRate = f / (c + f)` (`0` when `c + f = 0`); `job-submitted`
events do not enter the denominator. -/
theorem getMetrics_failureRate (now windowMs : Nat) (log : EventLog) (c f : Nat)
    (hc : (metricsWindow now windowMs log).countP
        (fun e => e.2.action = ActionType.job_completed) = c)
    (hf : (metricsWindow now windowMs log).countP
        (fun e => e.2.action = ActionType.job_failed) = f) :
    (getMetrics now windowMs log).completed = c ∧
    (getMetrics now windowMs log).failed = f ∧
    (getMetrics now windowMs log).failureRate =
      (if c + f = 0 then 0 else (f : ℚ) / ((c : ℚ) + (f : ℚ))) := by
  have hcc : ((metricsWindow now windowMs log).foldl
      (fun s e => scanStep s e.2) initScanAcc).completed = c := by
    rw [foldl_scan_completed _ initScanAcc, hc]
    simp [initScanAcc]
  have hff : ((metricsWindow now windowMs log).foldl
      (fun s e => scanStep s e.2) initScanAcc).failed = f := by
    rw [foldl_scan_failed _ initScanAcc, hf]
    simp [initScanAcc]
  refine ⟨hcc, hff, ?_⟩
  show (if ((metricsWindow now windowMs log).foldl (fun s e => scanStep s e.2)
          initScanAcc).completed +
        ((metricsWindow now windowMs log).foldl (fun s e => scanStep s e.2)
          initScanAcc).failed = 0 then (0 : ℚ)
      else _) = _
  rw [hcc, hff]
  by_cases h0 : c + f = 0
  · rw [if_pos h0, if_pos h0]
  · rw [if_neg h0, if_neg h0]
    push_cast
    rfl

/-- C7 witness: a window holding one `job-completed` and two `job-failed`
events yields `failureRate = 2/3`. -/
theorem getMetrics_failureRate_witness :
    (getMetrics 100 100
        [(indexKey 40 "e1",
          { id := "e1", timestamp := 40, type := LogType.log,
            action := ActionType.job_completed, body := [("jobId", "a")] }),
         (indexKey 50 "e2",
          { id := "e2", timestamp := 50, type := LogType.error,
            action := ActionType.job_failed, body := [("jobId", "b")] }),
         (indexKey 60 "e3",
          { id := "e3", timestamp := 60, type := LogType.error,
            action := ActionType.job_failed, body := [("jobId", "c")] })]).completed = 1 ∧
    (getMetrics 100 100
        [(indexKey 40 "e1",
          { id := "e1", timestamp := 40, type := LogType.log,
            action := ActionType.job_completed, body := [("jobId", "a")] }),
         (indexKey 50 "e2",
          { id := "e2", timestamp := 50, type := LogType.error,
            action := ActionType.job_failed, body := [("jobId", "b")] }),
         (indexKey 60 "e3",
          { id := "e3", timestamp := 60, type := LogType.error,
            action := ActionType.job_failed, body := [("jobId", "c")] })]).failed = 2 ∧
    (getMetrics 100 100
        [(indexKey 40 "e1",
          { id := "e1", timestamp := 40, type := LogType.log,
            action := ActionType.job_completed, body := [("jobId", "a")] }),
         (indexKey 50 "e2",
          { id := "e2", timestamp := 50, type := LogType.error,
            action := ActionType.job_failed, body := [("jobId", "b")] }),
         (indexKey 60 "e3",
          { id := "e3", timestamp := 60, type := LogType.error,
            action := ActionType.job_failed, body := [("jobId", "c")] })]).failureRate =
      (if 1 + 2 = 0 then 0 else ((2 : ℚ) / ((1 : ℚ) + (2 : ℚ)))) :=
  getMetrics_failureRate 100 100
    [(indexKey 40 "e1",
      { id := "e1", timestamp := 40, type := LogType.log,
        action := ActionType.job_completed, body := [("jobId", "a")] }),
     (indexKey 50 "e2",
      { id := "e2", timestamp := 50, type := LogType.error,
        action := ActionType.job_failed, body := [("jobId", "b")] }),
     (indexKey 60 "e3",
      { id := "e3", timestamp := 60, type := LogType.error,
        action := ActionType.job_failed, body := [("jobId", "c")] })]
    1 2 (by decide) (by decide)

/-! ## HTTP admission: POST /bird -/

/-- A JSON value, as far as the `name` field of the request body is
concerned. -/
inductive JsVal where
  | str (s : String)
  | num (n : Int)
  | boolean (b : Bool)
  | null
  | object
  | array
deriving DecidableEq

/-- JS truthiness: the guard `!name` rejects `undefined`, `null`,
`false`, `0` and the empty string. -/
def jsTruthy : JsVal → Bool
  | JsVal.str s => decide (s ≠ "")
  | JsVal.num n => decide (n ≠ 0)
  | JsVal.boolean b => b
  | JsVal.null => false
  | JsVal.object => true
  | JsVal.array => true

/-- `typeof name === "string"`. -/
def jsIsString : JsVal → Bool
  | JsVal.str _ => true
  | _ => false

/-- Outcome of the `POST /bird` handler: an error response, or a job
response carrying the projected `{id, name, status, createdAt}`. -/
inductive PostBirdRes where
  | err (status : Nat) (message : String)
  | jobInfo (status : Nat) (id : String) (name : String)
      (jobStatus : JobStatus) (createdAt : Nat)
deriving DecidableEq

def resStatus : PostBirdRes → Nat
  | PostBirdRes.err s _ => s
  | PostBirdRes.jobInfo s _ _ _ _ => s

/-- The `POST /bird` handler of `createApp` (`src/index.ts`):
destructure `name` from the body; reject with `400` when
`!name || typeof name !== "string"`; otherwise submit and answer `200`
(duplicate) or `201` (fresh) with `{id, name, status, createdAt}`. -/
def postBird (now : Nat) (bodyName : Option JsVal) (st : QueueState) :
    PostBirdRes × QueueState :=
  match bodyName with
  | none => (PostBirdRes.err 400 "Missing required field: name", st)
  | some v =>
    if jsTruthy v && jsIsString v then
      match v with
      | JsVal.str name =>
        let r := submitJob now name st
        if r.1.2 then
          (PostBirdRes.jobInfo 200 r.1.1.id r.1.1.name r.1.1.status r.1.1.createdAt, r.2)
        else
          (PostBirdRes.jobInfo 201 r.1.1.id r.1.1.name r.1.1.status r.1.1.createdAt, r.2)
      | _ => (PostBirdRes.err 400 "Missing required field: name", st)
    else (PostBirdRes.err 400 "Missing required field: name", st)

/-! ## Claim C8: POST /bird admission -/

/-- C8 counterexample: for the empty-string name — a string, which the
claim says must be answered with `201` or `200` — the handler answers
`400`, because the guard `!name` treats `""` as falsy. -/
theorem postBird_empty_string_400 :
    resStatus (postBird 0 (some (JsVal.str "")) emptyState).1 = 400 ∧
    ¬ (resStatus (postBird 0 (some (JsVal.str "")) emptyState).1 = 201 ∨
       resStatus (postBird 0 (some (JsVal.str "")) emptyState).1 = 200) := by
  decide

/-- C8 (amended): when the body's `name` is missing, not a string, or
the empty string, the response is `400` and the queue is not touched;
whenever `name` is a non-empty string, the response is `201` with
`{id, name, status, createdAt}` of the created job when fresh, or `200`
with the same shape when deduplicated. -/
theorem postBird_spec (now : Nat) (bodyName : Option JsVal) (st : QueueState) :
    ((∀ s, bodyName = some (JsVal.str s) → s = "") →
      postBird now bodyName st = (PostBirdRes.err 400 "Missing required field: name", st)) ∧
    (∀ s, bodyName = some (JsVal.str s) → s ≠ "" →
      postBird now bodyName st =
        (if (submitJob now s st).1.2 then
           PostBirdRes.jobInfo 200 (submitJob now s st).1.1.id (submitJob now s st).1.1.name
             (submitJob now s st).1.1.status (submitJob now s st).1.1.createdAt
         else
           PostBirdRes.jobInfo 201 (submitJob now s st).1.1.id (submitJob now s st).1.1.name
             (submitJob now s st).1.1.status (submitJob now s st).1.1.createdAt,
         (submitJob now s st).2)) := by
  constructor
  · intro hbad
    cases bodyName with
    | none => rfl
    | some v =>
      cases v with
      | str s =>
        have hs : s = "" := hbad s rfl
        subst hs
        rfl
      | num n => simp [postBird, jsIsString, Bool.and_false]
      | boolean b => simp [postBird, jsIsString, Bool.and_false]
      | null => rfl
      | object => rfl
      | array => rfl
  · intro s hb hs
    subst hb
    have ht : (jsTruthy (JsVal.str s) && jsIsString (JsVal.str s)) = true := by
      simp [jsTruthy, jsIsString, hs]
    simp only [postBird, ht]
    by_cases hdup : (submitJob now s st).1.2 = true
    · simp [hdup]
    · rw [Bool.not_eq_true] at hdup
      simp [hdup]

/-- C8 witness: submitting "Brown Pelican" into the empty store answers
`201` with the created job's fields. -/
theorem postBird_spec_witness :
    postBird 5 (some (JsVal.str "Brown Pelican")) emptyState =
      (if (submitJob 5 "Brown Pelican" emptyState).1.2 then
         PostBirdRes.jobInfo 200 (submitJob 5 "Brown Pelican" emptyState).1.1.id
           (submitJob 5 "Brown Pelican" emptyState).1.1.name
           (submitJob 5 "Brown Pelican" emptyState).1.1.status
           (submitJob 5 "Brown Pelican" emptyState).1.1.createdAt
       else
         PostBirdRes.jobInfo 201 (submitJob 5 "Brown Pelican" emptyState).1.1.id
           (submitJob 5 "Brown Pelican" emptyState).1.1.name
           (submitJob 5 "Brown Pelican" emptyState).1.1.status
           (submitJob 5 "Brown Pelican" emptyState).1.1.createdAt,
       (submitJob 5 "Brown Pelican" emptyState).2) :=
  (postBird_spec 5 (some (JsVal.str "Brown Pelican")) emptyState).2 "Brown Pelican" rfl
    (by decide)

end Birds
